import Mathlib

/-!
Verification of the Onyx-RS-Bridge core primitives against their
natural-language specification.

The development shallowly embeds the relevant Python modules of
`src/repairshopr_connector/`:

* `state.py`    — `SyncCheckpoint`, `StateManager` (checkpoint store);
* `cache.py`    — `BoundedLRUCache` (bounded LRU cache with TTL);
* `rate_limiter.py` — `TokenBucketRateLimiter` (token bucket);
* `client.py`   — the paginated fetch iterators with deduplication;
* `connector.py` — the per-record document building loop.

Modelling conventions:

* Python `datetime` values are represented by the UTC instant they denote,
  at microsecond resolution (`Datetime.usec`, an integer count of
  microseconds since the epoch).  Replacing a missing tzinfo by UTC is the
  identity under this representation.  `datetime.isoformat` and
  `datetime.fromisoformat` are exact mutual inverses for such values, so
  the serialized timestamp string is represented by the datetime it
  denotes (an `Option Datetime` in the serialized record, `none` for JSON
  null).
* Monotonic-clock values and token counts (Python floats) are represented
  as rationals; `float("inf")` becomes the top element of `WithTop ℚ`.
* Python `set[int]` becomes `Finset ℤ`; `list(s)` enumerates a set in an
  unspecified order, modelled by the canonical sorted enumeration.
* Fallible operations (file reads, JSON parsing, document building)
  return `Except`/`Option`; an exception caught by a `try`/`except`
  block corresponds to the error branch of the match.
-/

namespace OnyxRSBridge

/-- A Python `datetime`, represented by the UTC instant it denotes, as an
integer number of microseconds since the epoch. -/
structure Datetime where
  usec : Int
deriving DecidableEq, Repr

/-! ## state.py : SyncCheckpoint -/

/-- Embedding of the `SyncCheckpoint` dataclass of `state.py`.
Field names and order follow the source; `set[int]` becomes `Finset ℤ`. -/
structure SyncCheckpoint where
  last_full_sync : Option Datetime := none
  last_poll : Option Datetime := none
  tickets_page : Int := 0
  tickets_seen_ids : Finset Int := ∅
  tickets_complete : Bool := false
  customers_page : Int := 0
  customers_seen_ids : Finset Int := ∅
  customers_complete : Bool := false
  assets_page : Int := 0
  assets_seen_ids : Finset Int := ∅
  assets_complete : Bool := false
  invoices_page : Int := 0
  invoices_seen_ids : Finset Int := ∅
  invoices_complete : Bool := false
  sync_started_at : Option Datetime := none
  sync_type : String := ""
  documents_processed : Int := 0
  errors : List String := []
deriving DecidableEq

/-- The fresh zero-value checkpoint `SyncCheckpoint()`: every field takes
its dataclass default. -/
def SyncCheckpoint.fresh : SyncCheckpoint := {}

/-- The JSON-serializable dict produced by `SyncCheckpoint.to_dict` and
consumed by `SyncCheckpoint.from_dict` (and, via `json.dump`/`json.load`,
the content of the state file).  JSON faithfully round-trips each of these
value shapes; the iso-format timestamp string is represented by the
datetime it denotes (see the module header). -/
structure CheckpointDict where
  last_full_sync : Option Datetime
  last_poll : Option Datetime
  tickets_page : Int
  tickets_seen_ids : List Int
  tickets_complete : Bool
  customers_page : Int
  customers_seen_ids : List Int
  customers_complete : Bool
  assets_page : Int
  assets_seen_ids : List Int
  assets_complete : Bool
  invoices_page : Int
  invoices_seen_ids : List Int
  invoices_complete : Bool
  sync_started_at : Option Datetime
  sync_type : String
  documents_processed : Int
  errors : List String
deriving DecidableEq, Repr

/-- `d.isoformat() if d else None`: a present datetime is serialized to its
iso string (represented by the datetime itself), an absent one to null. -/
def serialize_dt (d : Option Datetime) : Option Datetime :=
  match d with
  | some d => some d
  | none => none

/-- The inner `parse_dt` of `SyncCheckpoint.from_dict`: a non-empty
timestamp string parses back to the datetime it denotes (iso strings are
never empty, so Python truthiness coincides with presence); null gives
`None`. -/
def parse_dt (val : Option Datetime) : Option Datetime :=
  match val with
  | some d => some d
  | none => none

/-- `SyncCheckpoint.to_dict` of `state.py`.  `list(set)` enumerates the
seen-id sets (canonical order chosen); `errors[-100:]` keeps the last 100
error strings. -/
def SyncCheckpoint.to_dict (c : SyncCheckpoint) : CheckpointDict where
  last_full_sync := serialize_dt c.last_full_sync
  last_poll := serialize_dt c.last_poll
  tickets_page := c.tickets_page
  tickets_seen_ids := c.tickets_seen_ids.sort (· ≤ ·)
  tickets_complete := c.tickets_complete
  customers_page := c.customers_page
  customers_seen_ids := c.customers_seen_ids.sort (· ≤ ·)
  customers_complete := c.customers_complete
  assets_page := c.assets_page
  assets_seen_ids := c.assets_seen_ids.sort (· ≤ ·)
  assets_complete := c.assets_complete
  invoices_page := c.invoices_page
  invoices_seen_ids := c.invoices_seen_ids.sort (· ≤ ·)
  invoices_complete := c.invoices_complete
  sync_started_at := serialize_dt c.sync_started_at
  sync_type := c.sync_type
  documents_processed := c.documents_processed
  errors := c.errors.drop (c.errors.length - 100)

/-- `SyncCheckpoint.from_dict` of `state.py`: `set(list)` rebuilds the
seen-id sets; timestamps go through `parse_dt`. -/
def SyncCheckpoint.from_dict (data : CheckpointDict) : SyncCheckpoint where
  last_full_sync := parse_dt data.last_full_sync
  last_poll := parse_dt data.last_poll
  tickets_page := data.tickets_page
  tickets_seen_ids := data.tickets_seen_ids.toFinset
  tickets_complete := data.tickets_complete
  customers_page := data.customers_page
  customers_seen_ids := data.customers_seen_ids.toFinset
  customers_complete := data.customers_complete
  assets_page := data.assets_page
  assets_seen_ids := data.assets_seen_ids.toFinset
  assets_complete := data.assets_complete
  invoices_page := data.invoices_page
  invoices_seen_ids := data.invoices_seen_ids.toFinset
  invoices_complete := data.invoices_complete
  sync_started_at := parse_dt data.sync_started_at
  sync_type := data.sync_type
  documents_processed := data.documents_processed
  errors := data.errors

/-! ## state.py : StateManager -/

/-- The possible observable states of the durable state file, as
distinguished by `StateManager.load`: the file may be absent, unreadable
(`open` raises), hold malformed JSON (`json.load` raises), hold JSON on
which `SyncCheckpoint.from_dict` raises, or hold a well-formed serialized
checkpoint. -/
inductive FileState where
  | absent
  | unreadable
  | malformedJson
  | badSchema
  | good (data : CheckpointDict)
deriving DecidableEq

/-- The fallible read-and-parse pipeline inside `StateManager.load`
(`open` + `json.load` + `SyncCheckpoint.from_dict`): each failure mode
surfaces as an error value instead of a Python exception. -/
def readStateFile (fs : FileState) : Except String CheckpointDict :=
  match fs with
  | FileState.absent => Except.error "no state file"
  | FileState.unreadable => Except.error "cannot open state file"
  | FileState.malformedJson => Except.error "invalid JSON"
  | FileState.badSchema => Except.error "checkpoint validation failed"
  | FileState.good data => Except.ok data

/-- `StateManager.load`: absence is checked first and returns a fresh
checkpoint; any exception in the read/parse pipeline is caught and also
yields a fresh checkpoint; otherwise the parsed checkpoint is returned. -/
def StateManager.load (fs : FileState) : SyncCheckpoint :=
  match fs with
  | FileState.absent => SyncCheckpoint.fresh
  | _ =>
    match readStateFile fs with
    | Except.ok data => SyncCheckpoint.from_dict data
    | Except.error _ => SyncCheckpoint.fresh

/-- `StateManager.save`: serializes the checkpoint through `to_dict` and
`json.dump` into the state file (temp-write plus atomic rename; on the
success path the file afterwards holds exactly the serialized dict). -/
def StateManager.save (checkpoint : SyncCheckpoint) : FileState :=
  FileState.good checkpoint.to_dict

/-- `StateManager._is_sync_complete` of `state.py`: note that the source
consults only the tickets, customers and assets completion flags. -/
def is_sync_complete (checkpoint : SyncCheckpoint) : Bool :=
  checkpoint.tickets_complete &&
  checkpoint.customers_complete &&
  checkpoint.assets_complete

/-- `StateManager.needs_full_sync` of `state.py`.  `now` stands for
`datetime.now(timezone.utc)`; `age.total_seconds() > max_age_hours * 3600`
is the same comparison scaled to exact microseconds. -/
def needs_full_sync (now : Datetime) (checkpoint : SyncCheckpoint)
    (max_age_hours : Int) : Bool :=
  match checkpoint.last_full_sync with
  | none => true
  | some lfs =>
    if checkpoint.sync_started_at.isSome && !is_sync_complete checkpoint then
      true
    else if now.usec - lfs.usec > max_age_hours * 3600 * 1000000 then
      true
    else
      false

/-- Modelled from the spec wording of claim C1 (for comparison with the
source function `needs_full_sync`): true iff no prior full sync is
recorded, or the prior full sync is older than `max_age_hours`, or the
started-timestamp is set but the per-kind completion flags — one per
entity kind, tickets, customers, assets and invoices — are not all true. -/
def needs_full_sync_claimed (now : Datetime) (checkpoint : SyncCheckpoint)
    (max_age_hours : Int) : Bool :=
  checkpoint.last_full_sync.isNone ||
  (match checkpoint.last_full_sync with
   | some lfs => now.usec - lfs.usec > max_age_hours * 3600 * 1000000
   | none => false) ||
  (checkpoint.sync_started_at.isSome &&
    !(checkpoint.tickets_complete && checkpoint.customers_complete &&
      checkpoint.assets_complete && checkpoint.invoices_complete))

/-! ## Concrete checkpoints used in the checkpoint-store theorems -/

/-- A checkpoint whose most recent sync was interrupted during the
invoices phase: the started-timestamp is set, tickets, customers and
assets are complete, invoices is not, and the recorded full sync is only
one hour old. -/
def interruptedInvoicesCheckpoint : SyncCheckpoint :=
  { last_full_sync := some ⟨0⟩
    sync_started_at := some ⟨0⟩
    sync_type := "full"
    tickets_complete := true
    customers_complete := true
    assets_complete := true
    invoices_complete := false }

/-- A checkpoint recording a previous sync completed at time zero (all
per-kind completion flags true). -/
def completedSyncCheckpoint : SyncCheckpoint :=
  { last_full_sync := some ⟨0⟩
    sync_started_at := some ⟨0⟩
    sync_type := "full"
    tickets_complete := true
    customers_complete := true
    assets_complete := true
    invoices_complete := true }

/-- A concrete well-formed checkpoint with non-empty seen-id sets and a
non-empty (truncated) error list, used to witness the round-trip
theorem. -/
def roundtripExampleCheckpoint : SyncCheckpoint :=
  { last_full_sync := some ⟨1700000000000000⟩
    last_poll := some ⟨1700000050000000⟩
    tickets_page := 7
    tickets_seen_ids := {101, 102, 103}
    tickets_complete := true
    customers_page := 2
    customers_seen_ids := {5}
    customers_complete := false
    assets_page := 1
    assets_seen_ids := {9, 8}
    assets_complete := false
    invoices_page := 0
    invoices_seen_ids := ∅
    invoices_complete := false
    sync_started_at := some ⟨1700000000000001⟩
    sync_type := "full"
    documents_processed := 42
    errors := ["Ticket 101: boom", "Customer 5: bad record"] }

/-! ## cache.py : BoundedLRUCache

The `OrderedDict` backing store is modelled as an association list whose
front is the least-recently-used entry and whose back is the
most-recently-used one; keys are unique in every reachable state.
Monotonic-clock instants are rationals; `float("inf")` is the top element
of `WithTop ℚ`. -/

/-- A cache entry with value and expiration time (`CacheEntry` of
`cache.py`). -/
structure CacheEntry (V : Type) where
  value : V
  expires_at : WithTop ℚ
deriving DecidableEq

/-- State of a `BoundedLRUCache` instance: configuration, the ordered
key-to-entry mapping and the statistics counters. -/
structure BoundedLRUCache (K V : Type) where
  max_size : ℕ
  ttl_seconds : ℚ
  cache : List (K × CacheEntry V)
  hits : ℕ
  misses : ℕ
  evictions : ℕ
deriving DecidableEq

/-- The cache constructor (`__init__`): empty mapping, zeroed statistics.
The source raises `ValueError` unless `max_size` is positive, so every
constructed cache has `1 ≤ max_size`. -/
def BoundedLRUCache.init (K V : Type) (max_size : ℕ) (ttl_seconds : ℚ) :
    BoundedLRUCache K V :=
  { max_size := max_size
    ttl_seconds := ttl_seconds
    cache := []
    hits := 0
    misses := 0
    evictions := 0 }

/-- `OrderedDict.get(key)`: the entry stored under `key`, if any. -/
def lookupEntry {K V : Type} [DecidableEq K] :
    List (K × CacheEntry V) → K → Option (CacheEntry V)
  | [], _ => none
  | (k, e) :: rest, key => if k = key then some e else lookupEntry rest key

/-- `del cache[key]`: removes the (unique) entry stored under `key`. -/
def removeKey {K V : Type} [DecidableEq K] :
    List (K × CacheEntry V) → K → List (K × CacheEntry V)
  | [], _ => []
  | (k, e) :: rest, key =>
    if k = key then rest else (k, e) :: removeKey rest key

/-- The keys of the cache mapping, in least-recently-used-first order. -/
def cacheKeys {K V : Type} (c : BoundedLRUCache K V) : List K :=
  c.cache.map Prod.fst

/-- `BoundedLRUCache.get` of `cache.py`: a miss on an absent key; a miss
that deletes the entry when the TTL is positive and `now` is strictly past
its expiration; otherwise a hit that moves the entry to the
most-recently-used end.  Returns the Python return value together with the
updated cache state. -/
def BoundedLRUCache.get {K V : Type} [DecidableEq K]
    (c : BoundedLRUCache K V) (key : K) (now : ℚ) :
    Option V × BoundedLRUCache K V :=
  match lookupEntry c.cache key with
  | none => (none, { c with misses := c.misses + 1 })
  | some entry =>
    if 0 < c.ttl_seconds ∧ entry.expires_at < (now : WithTop ℚ) then
      (none, { c with cache := removeKey c.cache key, misses := c.misses + 1 })
    else
      (some entry.value,
        { c with cache := removeKey c.cache key ++ [(key, entry)],
                 hits := c.hits + 1 })

/-- The `while len(self._cache) >= self.max_size: popitem(last=False)`
eviction loop of `BoundedLRUCache.set`: pops least-recently-used entries
from the front until the size is below `max_size`, counting evictions.
(On an empty mapping the loop guard is false for every positive
`max_size`, so the empty case returns unchanged.) -/
def evictLRU {K V : Type} (max_size : ℕ) :
    List (K × CacheEntry V) → List (K × CacheEntry V) × ℕ
  | [] => ([], 0)
  | x :: rest =>
    if max_size ≤ (x :: rest).length then
      let r := evictLRU max_size rest
      (r.1, r.2 + 1)
    else
      (x :: rest, 0)

/-- `BoundedLRUCache.set` of `cache.py`: computes the expiration instant
(`now + ttl`, or infinity when the TTL is not positive), removes an
existing entry under the key, evicts least-recently-used entries while at
capacity, then appends the new entry at the most-recently-used end. -/
def BoundedLRUCache.set {K V : Type} [DecidableEq K]
    (c : BoundedLRUCache K V) (key : K) (value : V) (now : ℚ) :
    BoundedLRUCache K V :=
  let expires_at : WithTop ℚ :=
    if 0 < c.ttl_seconds then ((now + c.ttl_seconds : ℚ) : WithTop ℚ) else ⊤
  let l1 := if (lookupEntry c.cache key).isSome then removeKey c.cache key
            else c.cache
  let r := evictLRU c.max_size l1
  { c with cache := r.1 ++ [(key, ⟨value, expires_at⟩)],
           evictions := c.evictions + r.2 }

/-- An element of a finite sequence of cache operations: a `get` or a
`set`, each tagged with the monotonic-clock instant at which it runs. -/
inductive CacheOp (K V : Type) where
  | get (key : K) (now : ℚ)
  | set (key : K) (value : V) (now : ℚ)

/-- Runs a finite sequence of cache operations, discarding `get` return
values. -/
def runOps {K V : Type} [DecidableEq K]
    (c : BoundedLRUCache K V) : List (CacheOp K V) → BoundedLRUCache K V
  | [] => c
  | CacheOp.get key now :: rest => runOps (c.get key now).2 rest
  | CacheOp.set key value now :: rest => runOps (c.set key value now) rest

/-- Inserting a list of key/value pairs in order, all at instant `now`. -/
def insertAll {K V : Type} [DecidableEq K] (c : BoundedLRUCache K V)
    (pairs : List (K × V)) (now : ℚ) : BoundedLRUCache K V :=
  pairs.foldl (fun acc p => acc.set p.1 p.2 now) c

/-- A capacity-1 cache in which key 10 was inserted: the state before the
touch-then-evict scenario of the LRU claim. -/
def c7Step1 : BoundedLRUCache Int String :=
  (BoundedLRUCache.init Int String 1 0).set 10 "a" 0

/-- The capacity-1 cache after a `get` touched the cached key 10. -/
def c7Touched : BoundedLRUCache Int String := (c7Step1.get 10 0).2

/-- The capacity-1 cache after the eviction-triggering insert of the fresh
key 20. -/
def c7Final : BoundedLRUCache Int String := c7Touched.set 20 "b" 0

/-- A concrete cache state holding one entry under key 1 that expires at
monotonic instant 5, with a 10-second TTL. -/
def c8Cache : BoundedLRUCache Int String :=
  { max_size := 5
    ttl_seconds := 10
    cache := [(1, ⟨"x", ((5 : ℚ) : WithTop ℚ)⟩)]
    hits := 0
    misses := 0
    evictions := 0 }

/-! ## rate_limiter.py : TokenBucketRateLimiter

Monotonic-clock instants, token counts and rates (Python floats) are
rationals.  The wall-clock `last_request_time` statistic is omitted (it
never feeds back into the algorithm). -/

/-- State of a `TokenBucketRateLimiter`: configuration, the token count
and refill bookkeeping, and the statistics counters. -/
structure TokenBucketRateLimiter where
  rate : ℚ
  capacity : ℕ
  tokens : ℚ
  last_refill : ℚ
  requests_made : ℕ
  requests_throttled : ℕ
  total_wait_time : ℚ
deriving DecidableEq

/-- The capacity computed by the limiter constructor:
`burst_capacity or max(10, requests_per_minute // 10)` — a given non-zero
burst capacity wins, and an absent or falsy zero value falls back to ten
percent of the per-minute rate with floor 10. -/
def initCapacity (requests_per_minute : ℕ) (burst_capacity : Option ℕ) : ℕ :=
  match burst_capacity with
  | some b => if b ≠ 0 then b else max 10 (requests_per_minute / 10)
  | none => max 10 (requests_per_minute / 10)

/-- The limiter constructor (`__init__`): `rate = requests_per_minute / 60`
tokens per second, the bucket starts full at `capacity` tokens, and the
refill clock starts at the construction instant `t0`. -/
def TokenBucketRateLimiter.init (requests_per_minute : ℕ)
    (burst_capacity : Option ℕ) (t0 : ℚ) : TokenBucketRateLimiter :=
  { rate := (requests_per_minute : ℚ) / 60
    capacity := initCapacity requests_per_minute burst_capacity
    tokens := (initCapacity requests_per_minute burst_capacity : ℚ)
    last_refill := t0
    requests_made := 0
    requests_throttled := 0
    total_wait_time := 0 }

/-- `TokenBucketRateLimiter._refill`: adds `elapsed * rate` tokens since
the last refill, clamped to `capacity`, and advances the refill clock. -/
def refill (rl : TokenBucketRateLimiter) (now : ℚ) : TokenBucketRateLimiter :=
  { rl with
    tokens := min (rl.capacity : ℚ) (rl.tokens + (now - rl.last_refill) * rl.rate)
    last_refill := now }

/-- Outcome of one iteration of the `acquire` loop: either a token was
available and consumed immediately, or the caller must sleep for the
computed wait before retrying. -/
inductive AcquireOutcome where
  | acquired (rl : TokenBucketRateLimiter)
  | mustWait (rl : TokenBucketRateLimiter) (wait : ℚ)
deriving DecidableEq

/-- One iteration of the `while True` loop of
`TokenBucketRateLimiter.acquire` (no timeout), writing `refill rl now` for
the refilled state the loop body calls `self` after `self._refill()`:
either at least 1.0 token is available, so 1.0 is consumed and the call
succeeds, or the iteration computes
`wait_time = (1.0 - tokens) / rate` and reaches the sleep branch. -/
def acquire_attempt (rl : TokenBucketRateLimiter) (now : ℚ) : AcquireOutcome :=
  if 1 ≤ (refill rl now).tokens then
    AcquireOutcome.acquired
      { refill rl now with
        tokens := (refill rl now).tokens - 1
        requests_made := (refill rl now).requests_made + 1 }
  else
    AcquireOutcome.mustWait (refill rl now)
      ((1 - (refill rl now).tokens) / (refill rl now).rate)

/-- `n` consecutive `acquire()` calls, all at the same instant `now`, each
required to succeed on its first loop iteration (without reaching the
sleep branch); `none` if any of them would have to wait. -/
def acquireN (now : ℚ) : ℕ → TokenBucketRateLimiter → Option TokenBucketRateLimiter
  | 0, rl => some rl
  | n + 1, rl =>
    match acquire_attempt rl now with
    | AcquireOutcome.acquired r => acquireN now n r
    | AcquireOutcome.mustWait _ _ => none

/-- The limiter state after `n` immediate acquisitions from a freshly
constructed limiter: `n` tokens consumed, `n` requests recorded. -/
def bucketAfter (requests_per_minute : ℕ) (burst_capacity : Option ℕ)
    (t0 : ℚ) (n : ℕ) : TokenBucketRateLimiter :=
  { rate := (requests_per_minute : ℚ) / 60
    capacity := initCapacity requests_per_minute burst_capacity
    tokens := (initCapacity requests_per_minute burst_capacity : ℚ) - n
    last_refill := t0
    requests_made := n
    requests_throttled := 0
    total_wait_time := 0 }

/-! ## client.py : paginated fetch iterators

Entity records carry the fields the fetch engine consults (`id`,
`updated_at`, plus `status`, `customer_id` and `comments` for tickets);
the many kind-specific fields used only by the out-of-scope document
formatter are omitted.  A paginated source is a finite list of page
responses; fetching past its end yields an empty response, which ends the
loop exactly as in the source. -/

/-- A ticket comment (`RSComment` of `models.py`); formatter-only fields
omitted. -/
structure RSComment where
  id : Int
  ticket_id : Int
  hidden : Bool
deriving DecidableEq

/-- A ticket (`RSTicket` of `models.py`); formatter-only fields omitted. -/
structure RSTicket where
  id : Int
  status : String
  updated_at : Option Datetime
  customer_id : Option Int
  comments : List RSComment
deriving DecidableEq

/-- A customer (`RSCustomer` of `models.py`); formatter-only fields
omitted. -/
structure RSCustomer where
  id : Int
  updated_at : Option Datetime
deriving DecidableEq

/-- A customer asset (`RSAsset` of `models.py`); formatter-only fields
omitted. -/
structure RSAsset where
  id : Int
  customer_id : Option Int
  updated_at : Option Datetime
deriving DecidableEq

/-- An invoice (`RSInvoice` of `models.py`); formatter-only fields
omitted. -/
structure RSInvoice where
  id : Int
  customer_id : Option Int
  updated_at : Option Datetime
deriving DecidableEq

/-- One page response from the source API (`RSTicketsResponse` and its
siblings): the records of the page and the reported total page count. -/
structure PageResponse (R : Type) where
  records : List R
  total_pages : ℕ
deriving DecidableEq

/-- The client-side time filter shared by all four iterators: a record is
skipped when a `since` bound is active, the record has an `updated_at`
value, and `updated_at <= since` once both are normalized to UTC (a naive
timestamp is reinterpreted as UTC, which is the identity in this
representation); a record without `updated_at` is never skipped by this
filter (`if since and record.updated_at:`). -/
def sinceFilterSkip (since : Option Datetime) (updated_at : Option Datetime) : Bool :=
  match since, updated_at with
  | some s, some u => u.usec ≤ s.usec
  | _, _ => false

/-- The per-record body of the `iter_all_tickets` loop: skip if the id was
already seen, otherwise record the id as seen; then apply the client-side
time filter; an eligible ticket is yielded, with its comments fetched
first when `fetch_comments` is set. -/
def stepTicket (fetch_comments : Bool) (getComments : Int → List RSComment)
    (since : Option Datetime) (seen : Finset Int) (t : RSTicket) :
    Finset Int × Option RSTicket :=
  if t.id ∈ seen then (seen, none)
  else
    let seen1 := insert t.id seen
    if sinceFilterSkip since t.updated_at then (seen1, none)
    else (seen1,
      some (if fetch_comments then { t with comments := getComments t.id } else t))

/-- The per-record body of the `iter_all_customers` loop. -/
def stepCustomer (since : Option Datetime) (seen : Finset Int) (c : RSCustomer) :
    Finset Int × Option RSCustomer :=
  if c.id ∈ seen then (seen, none)
  else
    let seen1 := insert c.id seen
    if sinceFilterSkip since c.updated_at then (seen1, none)
    else (seen1, some c)

/-- The per-record body of the `iter_all_assets` loop. -/
def stepAsset (since : Option Datetime) (seen : Finset Int) (a : RSAsset) :
    Finset Int × Option RSAsset :=
  if a.id ∈ seen then (seen, none)
  else
    let seen1 := insert a.id seen
    if sinceFilterSkip since a.updated_at then (seen1, none)
    else (seen1, some a)

/-- The per-record body of the `iter_all_invoices` loop. -/
def stepInvoice (since : Option Datetime) (seen : Finset Int) (i : RSInvoice) :
    Finset Int × Option RSInvoice :=
  if i.id ∈ seen then (seen, none)
  else
    let seen1 := insert i.id seen
    if sinceFilterSkip since i.updated_at then (seen1, none)
    else (seen1, some i)

/-- The inner `for record in response.records` loop shared by the four
iterators, parameterized by the per-record body: threads the seen-id set
and collects the yielded records in order. -/
def processPage {R S : Type} (step : Finset Int → R → Finset Int × Option S) :
    List R → Finset Int → Finset Int × List S
  | [], seen => (seen, [])
  | r :: rs, seen =>
    let res := step seen r
    let rest := processPage step rs res.1
    (rest.1, match res.2 with
             | some s => s :: rest.2
             | none => rest.2)

/-- The outer `while True` pagination loop shared by the four iterators:
starting from page 1, fetch the next response; an empty page breaks
immediately; otherwise process the page and stop once
`page >= response.total_pages`, else continue with the next page. -/
def fetchPages {R S : Type} (step : Finset Int → R → Finset Int × Option S) :
    List (PageResponse R) → ℕ → Finset Int → Finset Int × List S
  | [], _, seen => (seen, [])
  | resp :: rest, page, seen =>
    if resp.records.isEmpty then (seen, [])
    else
      let res := processPage step resp.records seen
      if resp.total_pages ≤ page then res
      else
        let res2 := fetchPages step rest (page + 1) res.1
        (res2.1, res.2 ++ res2.2)

/-- `RepairShoprClient.iter_all_tickets` of `client.py`, run against a
finite paginated source (the successive responses of `get_tickets`, whose
server-side status filter is part of the source): returns the final
seen-id set together with the yielded tickets in order. -/
def iter_all_tickets (pages : List (PageResponse RSTicket))
    (since : Option Datetime) (fetch_comments : Bool)
    (getComments : Int → List RSComment) (seen_ids : Finset Int) :
    Finset Int × List RSTicket :=
  fetchPages (stepTicket fetch_comments getComments since) pages 1 seen_ids

/-- `RepairShoprClient.iter_all_customers` of `client.py`. -/
def iter_all_customers (pages : List (PageResponse RSCustomer))
    (since : Option Datetime) (seen_ids : Finset Int) :
    Finset Int × List RSCustomer :=
  fetchPages (stepCustomer since) pages 1 seen_ids

/-- `RepairShoprClient.iter_all_assets` of `client.py`. -/
def iter_all_assets (pages : List (PageResponse RSAsset))
    (since : Option Datetime) (seen_ids : Finset Int) :
    Finset Int × List RSAsset :=
  fetchPages (stepAsset since) pages 1 seen_ids

/-- `RepairShoprClient.iter_all_invoices` of `client.py`. -/
def iter_all_invoices (pages : List (PageResponse RSInvoice))
    (since : Option Datetime) (seen_ids : Finset Int) :
    Finset Int × List RSInvoice :=
  fetchPages (stepInvoice since) pages 1 seen_ids

/-! ## connector.py : the per-record document building loop

`RepairShoprConnector._load_tickets` consumes the ticket stream produced
by `iter_all_tickets`, filters by configured statuses, enriches from the
caches (pure lookups, no live requests), builds one document per ticket
with per-record error capture, and yields batches of the configured size.
The document type and the builder are the out-of-scope collaborators, so
they are parameters; a builder exception is the error branch of the
`Except`. -/

/-- `f"Ticket {ticket.id}: {e}"`: the error string appended to
`checkpoint.errors` when building a ticket document fails. -/
def build_error_message (t : RSTicket) (e : String) : String :=
  "Ticket " ++ toString t.id ++ ": " ++ e

/-- `if self.ticket_statuses and ticket.status not in self.ticket_statuses`:
the configured-status filter; an absent or empty configuration (both falsy)
disables it. -/
def statusSkip (ticket_statuses : Option (List String)) (t : RSTicket) : Bool :=
  match ticket_statuses with
  | none => false
  | some statuses => !statuses.isEmpty && !statuses.contains t.status

/-- The cache-based enrichment of `_load_tickets`: for a truthy
`customer_id` (present and non-zero), look up the customer and take the
first of its cached assets, if any. -/
def ticketEnrichment (customersCache : Int → Option RSCustomer)
    (assetsCache : Int → List RSAsset) (t : RSTicket) :
    Option RSCustomer × Option RSAsset :=
  match t.customer_id with
  | some cid =>
    if cid ≠ 0 then (customersCache cid, (assetsCache cid).head?)
    else (none, none)
  | none => (none, none)

/-- One attempted document build for a ticket, with its enrichment. -/
def buildAttempt {Doc : Type}
    (buildDoc : RSTicket → Option RSCustomer → Option RSAsset → Except String Doc)
    (customersCache : Int → Option RSCustomer)
    (assetsCache : Int → List RSAsset) (t : RSTicket) : Except String Doc :=
  buildDoc t (ticketEnrichment customersCache assetsCache t).1
    (ticketEnrichment customersCache assetsCache t).2

/-- The `for ticket in ...` loop of `_load_tickets`: skip filtered
statuses; try to build the document — on success append it to the batch
and count it, on failure append the error string to `checkpoint.errors`
and continue; after either outcome, flush the batch once it reaches
`batch_size`; after the loop, flush any non-empty remainder.  Returns the
yielded batches and the final checkpoint. -/
def load_tickets_go {Doc : Type} (ticket_statuses : Option (List String))
    (batch_size : ℕ)
    (buildDoc : RSTicket → Option RSCustomer → Option RSAsset → Except String Doc)
    (customersCache : Int → Option RSCustomer)
    (assetsCache : Int → List RSAsset) :
    List RSTicket → List Doc → SyncCheckpoint →
      List (List Doc) × SyncCheckpoint
  | [], batch, cp => (if batch.isEmpty then [] else [batch], cp)
  | t :: ts, batch, cp =>
    if statusSkip ticket_statuses t then
      load_tickets_go ticket_statuses batch_size buildDoc customersCache
        assetsCache ts batch cp
    else
      match buildAttempt buildDoc customersCache assetsCache t with
      | Except.ok doc =>
        let batch1 := batch ++ [doc]
        let cp1 := { cp with documents_processed := cp.documents_processed + 1 }
        if batch_size ≤ batch1.length then
          let rest := load_tickets_go ticket_statuses batch_size buildDoc
            customersCache assetsCache ts [] cp1
          (batch1 :: rest.1, rest.2)
        else
          load_tickets_go ticket_statuses batch_size buildDoc customersCache
            assetsCache ts batch1 cp1
      | Except.error e =>
        let cp1 := { cp with errors := cp.errors ++ [build_error_message t e] }
        if batch_size ≤ batch.length then
          let rest := load_tickets_go ticket_statuses batch_size buildDoc
            customersCache assetsCache ts [] cp1
          (batch :: rest.1, rest.2)
        else
          load_tickets_go ticket_statuses batch_size buildDoc customersCache
            assetsCache ts batch cp1

/-- `RepairShoprConnector._load_tickets`, run on the ticket stream
produced by the iterator, starting from an empty batch. -/
def load_tickets {Doc : Type} (ticket_statuses : Option (List String))
    (batch_size : ℕ)
    (buildDoc : RSTicket → Option RSCustomer → Option RSAsset → Except String Doc)
    (customersCache : Int → Option RSCustomer)
    (assetsCache : Int → List RSAsset)
    (tickets : List RSTicket) (cp : SyncCheckpoint) :
    List (List Doc) × SyncCheckpoint :=
  load_tickets_go ticket_statuses batch_size buildDoc customersCache
    assetsCache tickets [] cp

/-- The error strings that the loop appends: one per status-eligible
ticket whose document build fails, in stream order. -/
def ticketFailureMsgs {Doc : Type} (ticket_statuses : Option (List String))
    (buildDoc : RSTicket → Option RSCustomer → Option RSAsset → Except String Doc)
    (customersCache : Int → Option RSCustomer)
    (assetsCache : Int → List RSAsset) : List RSTicket → List String
  | [] => []
  | t :: ts =>
    if statusSkip ticket_statuses t then
      ticketFailureMsgs ticket_statuses buildDoc customersCache assetsCache ts
    else
      match buildAttempt buildDoc customersCache assetsCache t with
      | Except.error e =>
        build_error_message t e ::
          ticketFailureMsgs ticket_statuses buildDoc customersCache assetsCache ts
      | Except.ok _ =>
        ticketFailureMsgs ticket_statuses buildDoc customersCache assetsCache ts

/-- The documents the loop emits: one per status-eligible ticket whose
document build succeeds, in stream order. -/
def ticketSuccessDocs {Doc : Type} (ticket_statuses : Option (List String))
    (buildDoc : RSTicket → Option RSCustomer → Option RSAsset → Except String Doc)
    (customersCache : Int → Option RSCustomer)
    (assetsCache : Int → List RSAsset) : List RSTicket → List Doc
  | [] => []
  | t :: ts =>
    if statusSkip ticket_statuses t then
      ticketSuccessDocs ticket_statuses buildDoc customersCache assetsCache ts
    else
      match buildAttempt buildDoc customersCache assetsCache t with
      | Except.ok d =>
        d :: ticketSuccessDocs ticket_statuses buildDoc customersCache assetsCache ts
      | Except.error _ =>
        ticketSuccessDocs ticket_statuses buildDoc customersCache assetsCache ts

/-- A minimal ticket with the given id (used in concrete scenarios). -/
def plainTicket (n : Int) : RSTicket :=
  { id := n, status := "New", updated_at := none, customer_id := none, comments := [] }

/-- A two-page ticket source whose pages overlap by one record (ids 1,2 on
page one and 2,3 on page two), simulating a page-boundary shift. -/
def overlapTicketPages : List (PageResponse RSTicket) :=
  [⟨[plainTicket 1, plainTicket 2], 2⟩, ⟨[plainTicket 2, plainTicket 3], 2⟩]

/-- A concrete customer without `updated_at` (used to witness C10). -/
def c10Customer : RSCustomer := { id := 6, updated_at := none }

/-- A concrete asset without `updated_at` (used to witness C10). -/
def c10Asset : RSAsset := { id := 7, customer_id := none, updated_at := none }

/-- A concrete invoice without `updated_at` (used to witness C10). -/
def c10Invoice : RSInvoice := { id := 8, customer_id := none, updated_at := none }

/-! ## Theorems about the checkpoint store (claims C1, C2, C4) -/

/-- C1 (counterexample): on a checkpoint whose invoices phase is the only
incomplete one, the claimed condition (all four per-kind completion flags)
holds, yet `needs_full_sync` returns false one hour after the recorded
full sync with `max_age_hours = 24` — the source consults only the
tickets, customers and assets flags. -/
theorem C1_counterexample :
    needs_full_sync_claimed ⟨3600 * 1000000⟩ interruptedInvoicesCheckpoint 24 = true ∧
    needs_full_sync ⟨3600 * 1000000⟩ interruptedInvoicesCheckpoint 24 = false := by
  constructor <;> rfl

/-- C1 (amended): `needs_full_sync checkpoint maxAgeHours` returns true
if and only if no prior full sync is recorded, or the started-timestamp is
set but the tickets, customers and assets completion flags (the only ones
the code consults — `invoices_complete` is not examined) are not all true,
or the prior full sync is older than `maxAgeHours`; in particular it
returns true for a full sync 25 hours old with `maxAgeHours = 24` and
false for one 23 hours old with a completed previous sync. -/
theorem C1_needs_full_sync_characterization :
    (∀ (now : Datetime) (c : SyncCheckpoint) (max_age_hours : Int),
      needs_full_sync now c max_age_hours = true ↔
        (c.last_full_sync = none ∨
         (c.sync_started_at.isSome = true ∧
           ¬(c.tickets_complete = true ∧ c.customers_complete = true ∧
             c.assets_complete = true)) ∨
         (∃ lfs, c.last_full_sync = some lfs ∧
           now.usec - lfs.usec > max_age_hours * 3600 * 1000000))) ∧
    needs_full_sync ⟨25 * 3600 * 1000000⟩ completedSyncCheckpoint 24 = true ∧
    needs_full_sync ⟨23 * 3600 * 1000000⟩ completedSyncCheckpoint 24 = false := by
  refine ⟨?_, by rfl, by rfl⟩
  intro now c mah
  cases h : c.last_full_sync with
  | none => simp [needs_full_sync, h]
  | some lfs =>
    simp only [needs_full_sync, h]
    by_cases hs : c.sync_started_at.isSome = true ∧ is_sync_complete c = false
    · rw [if_pos (by simp [hs.1, hs.2])]
      constructor
      · intro _
        refine Or.inr (Or.inl ⟨hs.1, fun hc => ?_⟩)
        simp [is_sync_complete, hc.1, hc.2.1, hc.2.2] at hs
      · intro _; rfl
    · rw [if_neg (by
        intro hcond
        rw [Bool.and_eq_true, Bool.not_eq_true'] at hcond
        exact hs hcond)]
      by_cases hage : now.usec - lfs.usec > mah * 3600 * 1000000
      · rw [if_pos hage]
        constructor
        · intro _
          exact Or.inr (Or.inr ⟨lfs, rfl, hage⟩)
        · intro _; rfl
      · rw [if_neg hage]
        constructor
        · intro hfalse
          exact absurd hfalse (by simp)
        · intro hr
          rcases hr with h1 | h1 | h1
          · exact absurd h1 (by simp)
          · exfalso
            apply hs
            refine ⟨h1.1, ?_⟩
            rcases Bool.eq_false_or_eq_true (is_sync_complete c) with ht | hf
            · exfalso
              apply h1.2
              rw [is_sync_complete, Bool.and_eq_true, Bool.and_eq_true] at ht
              exact ⟨ht.1.1, ht.1.2, ht.2⟩
            · exact hf
          · obtain ⟨lfs2, hl, hgt⟩ := h1
            injection hl with h3
            subst h3
            exact absurd hgt hage

/-- C2: saving any well-formed checkpoint (its error list already holds at
most 100 entries) and loading it back yields a checkpoint equal to the
original: every field round-trips unchanged through `to_dict`,
`from_dict` and the JSON state file. -/
theorem C2_checkpoint_roundtrip (c : SyncCheckpoint)
    (herr : c.errors.length ≤ 100) :
    StateManager.load (StateManager.save c) = c := by
  show SyncCheckpoint.from_dict (SyncCheckpoint.to_dict c) = c
  obtain ⟨lfs, lp, tp, ts, tc, cp, cs, cc, ap, as_, ac, ip, is_, ic, ss, st, dp, er⟩ := c
  simp only [SyncCheckpoint.from_dict, SyncCheckpoint.to_dict, parse_dt, serialize_dt]
  congr 1 <;>
    first
      | (cases lfs <;> rfl)
      | (cases lp <;> rfl)
      | (cases ss <;> rfl)
      | exact Finset.sort_toFinset _ _
      | (rw [Nat.sub_eq_zero_of_le herr, List.drop_zero])

/-- C2 (witness): the round-trip theorem applied to a concrete checkpoint
with non-empty seen-id sets and a non-empty error list. -/
theorem C2_checkpoint_roundtrip_witness :
    roundtripExampleCheckpoint.errors.length ≤ 100 ∧
    StateManager.load (StateManager.save roundtripExampleCheckpoint) =
      roundtripExampleCheckpoint :=
  ⟨by decide, C2_checkpoint_roundtrip roundtripExampleCheckpoint (by decide)⟩

/-- C4: `load` is a total function of the durable-storage state (the
embedding of the `try`/`except` body never raises); on an absent file, an
unreadable file, malformed JSON, or JSON failing checkpoint parsing it
returns the fresh zero-value checkpoint, and on a well-formed file it
returns the parsed checkpoint. -/
theorem C4_load_never_raises :
    StateManager.load FileState.absent = SyncCheckpoint.fresh ∧
    StateManager.load FileState.unreadable = SyncCheckpoint.fresh ∧
    StateManager.load FileState.malformedJson = SyncCheckpoint.fresh ∧
    StateManager.load FileState.badSchema = SyncCheckpoint.fresh ∧
    ∀ data, StateManager.load (FileState.good data) =
      SyncCheckpoint.from_dict data :=
  ⟨rfl, rfl, rfl, rfl, fun _ => rfl⟩

/-! ## Association-list and eviction-loop lemmas -/
theorem lookupEntry_eq_none {K V : Type} [DecidableEq K]
    {l : List (K × CacheEntry V)} {k : K} (h : k ∉ l.map Prod.fst) :
    lookupEntry l k = none := by
  induction l with
  | nil => rfl
  | cons x rest ih =>
    obtain ⟨a, e⟩ := x
    simp only [List.map_cons, List.mem_cons] at h
    push_neg at h
    have hak : ¬a = k := fun hc => h.1 hc.symm
    show (if a = k then some e else lookupEntry rest k) = none
    rw [if_neg hak]
    exact ih h.2

theorem lookupEntry_isSome_of_mem {K V : Type} [DecidableEq K]
    {l : List (K × CacheEntry V)} {k : K} (h : k ∈ l.map Prod.fst) :
    ∃ e, lookupEntry l k = some e := by
  induction l with
  | nil => simp at h
  | cons x rest ih =>
    obtain ⟨a, e⟩ := x
    by_cases hak : a = k
    · exact ⟨e, by simp [lookupEntry, hak]⟩
    · simp only [List.map_cons, List.mem_cons] at h
      rcases h with h | h
      · exact absurd h.symm hak
      · obtain ⟨e2, he2⟩ := ih h
        exact ⟨e2, by simp [lookupEntry, hak, he2]⟩

theorem lookupEntry_mem {K V : Type} [DecidableEq K]
    {l : List (K × CacheEntry V)} {k : K} {e : CacheEntry V}
    (h : lookupEntry l k = some e) : k ∈ l.map Prod.fst := by
  induction l with
  | nil => simp [lookupEntry] at h
  | cons x rest ih =>
    obtain ⟨a, e2⟩ := x
    by_cases hak : a = k
    · simp [hak]
    · simp only [lookupEntry, if_neg hak] at h
      simp [ih h]

theorem removeKey_map_fst {K V : Type} [DecidableEq K]
    (l : List (K × CacheEntry V)) (k : K) :
    (removeKey l k).map Prod.fst = (l.map Prod.fst).erase k := by
  induction l with
  | nil => rfl
  | cons x rest ih =>
    obtain ⟨a, e⟩ := x
    by_cases hak : a = k
    · simp [removeKey, hak, List.erase_cons]
    · simp [removeKey, hak, List.erase_cons, ih]

theorem removeKey_length_of_mem {K V : Type} [DecidableEq K]
    {l : List (K × CacheEntry V)} {k : K} (h : k ∈ l.map Prod.fst) :
    (removeKey l k).length + 1 = l.length := by
  induction l with
  | nil => simp at h
  | cons x rest ih =>
    obtain ⟨a, e⟩ := x
    by_cases hak : a = k
    · simp [removeKey, hak]
    · simp only [List.map_cons, List.mem_cons] at h
      rcases h with h | h
      · exact absurd h.symm hak
      · simp only [removeKey, if_neg hak, List.length_cons]
        rw [← ih h]

theorem evictLRU_length_lt {K V : Type} {m : ℕ} (hm : 1 ≤ m) :
    ∀ l : List (K × CacheEntry V), (evictLRU m l).1.length < m
  | [] => by simpa [evictLRU] using hm
  | x :: rest => by
    by_cases h : m ≤ (x :: rest).length
    · simp only [evictLRU, if_pos h]
      exact evictLRU_length_lt hm rest
    · simp only [evictLRU, if_neg h]
      show (x :: rest).length < m
      simp only [List.length_cons] at h ⊢
      omega

theorem evictLRU_of_lt {K V : Type} {m : ℕ} {l : List (K × CacheEntry V)}
    (h : l.length < m) : evictLRU m l = (l, 0) := by
  cases l with
  | nil => rfl
  | cons x rest =>
    have hc : ¬m ≤ (x :: rest).length := Nat.not_le.mpr h
    simp only [evictLRU, if_neg hc]

theorem evictLRU_pop {K V : Type} {m : ℕ} {l : List (K × CacheEntry V)}
    (hm : 1 ≤ m) (h : l.length = m) : (evictLRU m l).1 = l.tail := by
  cases l with
  | nil => simp at h; omega
  | cons x rest =>
    simp only [List.length_cons] at h
    have hrest : rest.length < m := by omega
    simp [evictLRU, h, evictLRU_of_lt hrest]

/-! ## Cache operation lemmas -/
theorem get_max_size {K V : Type} [DecidableEq K]
    (c : BoundedLRUCache K V) (key : K) (now : ℚ) :
    ((c.get key now).2).max_size = c.max_size := by
  unfold BoundedLRUCache.get
  split
  · rfl
  · split <;> rfl

theorem get_ttl {K V : Type} [DecidableEq K]
    (c : BoundedLRUCache K V) (key : K) (now : ℚ) :
    ((c.get key now).2).ttl_seconds = c.ttl_seconds := by
  unfold BoundedLRUCache.get
  split
  · rfl
  · split <;> rfl

theorem set_max_size {K V : Type} [DecidableEq K]
    (c : BoundedLRUCache K V) (key : K) (value : V) (now : ℚ) :
    (c.set key value now).max_size = c.max_size := rfl

theorem set_ttl {K V : Type} [DecidableEq K]
    (c : BoundedLRUCache K V) (key : K) (value : V) (now : ℚ) :
    (c.set key value now).ttl_seconds = c.ttl_seconds := rfl

theorem set_length_le {K V : Type} [DecidableEq K]
    (c : BoundedLRUCache K V) (key : K) (value : V) (now : ℚ)
    (hm : 1 ≤ c.max_size) :
    (c.set key value now).cache.length ≤ c.max_size := by
  show ((evictLRU c.max_size _).1 ++ [_]).length ≤ c.max_size
  rw [List.length_append, List.length_singleton]
  have := evictLRU_length_lt (V := V) hm
    (if (lookupEntry c.cache key).isSome then removeKey c.cache key else c.cache)
  omega

theorem set_fresh_keys {K V : Type} [DecidableEq K]
    (c : BoundedLRUCache K V) (key : K) (value : V) (now : ℚ)
    (hk : key ∉ cacheKeys c) (hlen : c.cache.length < c.max_size) :
    cacheKeys (c.set key value now) = cacheKeys c ++ [key] := by
  unfold BoundedLRUCache.set cacheKeys
  rw [lookupEntry_eq_none hk]
  simp only [Option.isSome_none, Bool.false_eq_true, if_false]
  rw [evictLRU_of_lt hlen]
  simp

theorem set_at_capacity_keys {K V : Type} [DecidableEq K]
    (c : BoundedLRUCache K V) (key : K) (value : V) (now : ℚ)
    (hk : key ∉ cacheKeys c) (hlen : c.cache.length = c.max_size)
    (hm : 1 ≤ c.max_size) :
    cacheKeys (c.set key value now) = (cacheKeys c).tail ++ [key] := by
  unfold BoundedLRUCache.set cacheKeys
  rw [lookupEntry_eq_none hk]
  simp only [Option.isSome_none, Bool.false_eq_true, if_false]
  rw [List.map_append, evictLRU_pop hm hlen]
  simp [List.map_tail]

theorem get_hit_of_ttl_nonpos {K V : Type} [DecidableEq K]
    (c : BoundedLRUCache K V) (key : K) (now : ℚ) {e : CacheEntry V}
    (httl : ¬0 < c.ttl_seconds) (hfind : lookupEntry c.cache key = some e) :
    c.get key now =
      (some e.value,
        { c with cache := removeKey c.cache key ++ [(key, e)],
                 hits := c.hits + 1 }) := by
  unfold BoundedLRUCache.get
  rw [hfind]
  exact if_neg (fun hcond => httl hcond.1)

/-! ## Operation sequences and repeated insertion -/
theorem runOps_append {K V : Type} [DecidableEq K]
    (c : BoundedLRUCache K V) (l1 l2 : List (CacheOp K V)) :
    runOps c (l1 ++ l2) = runOps (runOps c l1) l2 := by
  induction l1 generalizing c with
  | nil => rfl
  | cons op rest ih =>
    cases op with
    | get key now =>
      show runOps ((c.get key now).2) (rest ++ l2) =
        runOps (runOps ((c.get key now).2) rest) l2
      exact ih _
    | set key value now =>
      show runOps (c.set key value now) (rest ++ l2) =
        runOps (runOps (c.set key value now) rest) l2
      exact ih _

theorem runOps_max_size {K V : Type} [DecidableEq K]
    (c : BoundedLRUCache K V) (ops : List (CacheOp K V)) :
    (runOps c ops).max_size = c.max_size := by
  induction ops generalizing c with
  | nil => rfl
  | cons op rest ih =>
    cases op with
    | get key now => rw [runOps, ih, get_max_size]
    | set key value now => rw [runOps, ih, set_max_size]

theorem insertAll_append {K V : Type} [DecidableEq K]
    (c : BoundedLRUCache K V) (l1 l2 : List (K × V)) (now : ℚ) :
    insertAll c (l1 ++ l2) now = insertAll (insertAll c l1 now) l2 now := by
  simp [insertAll, List.foldl_append]

theorem insertAll_max_size {K V : Type} [DecidableEq K]
    (c : BoundedLRUCache K V) (pairs : List (K × V)) (now : ℚ) :
    (insertAll c pairs now).max_size = c.max_size := by
  induction pairs generalizing c with
  | nil => rfl
  | cons p rest ih =>
    show (insertAll (c.set p.1 p.2 now) rest now).max_size = c.max_size
    rw [ih, set_max_size]

theorem insertAll_ttl {K V : Type} [DecidableEq K]
    (c : BoundedLRUCache K V) (pairs : List (K × V)) (now : ℚ) :
    (insertAll c pairs now).ttl_seconds = c.ttl_seconds := by
  induction pairs generalizing c with
  | nil => rfl
  | cons p rest ih =>
    show (insertAll (c.set p.1 p.2 now) rest now).ttl_seconds = c.ttl_seconds
    rw [ih, set_ttl]

theorem insertAll_fresh_keys {K V : Type} [DecidableEq K] (now : ℚ) :
    ∀ (pairs : List (K × V)) (c : BoundedLRUCache K V),
      (pairs.map Prod.fst).Nodup →
      (∀ p ∈ pairs, p.1 ∉ cacheKeys c) →
      c.cache.length + pairs.length ≤ c.max_size →
      cacheKeys (insertAll c pairs now) = cacheKeys c ++ pairs.map Prod.fst
  | [], c, _, _, _ => by simp [insertAll]
  | p :: rest, c, hnd, hfresh, hlen => by
    have hlt : c.cache.length < c.max_size := by
      simp only [List.length_cons] at hlen; omega
    have hstep := set_fresh_keys c p.1 p.2 now (hfresh p (by simp)) hlt
    have hkeylen : (cacheKeys c).length = c.cache.length := List.length_map _ _
    have hlen2 : (c.set p.1 p.2 now).cache.length = c.cache.length + 1 := by
      have : (cacheKeys (c.set p.1 p.2 now)).length =
          (c.set p.1 p.2 now).cache.length := List.length_map _ _
      rw [hstep] at this
      simp only [List.length_append, List.length_singleton, hkeylen] at this
      omega
    have hrest := insertAll_fresh_keys now rest (c.set p.1 p.2 now)
      (by simpa using hnd.of_cons)
      (by
        intro q hq
        rw [hstep]
        simp only [List.mem_append, List.mem_singleton]
        push_neg
        refine ⟨hfresh q (by simp [hq]), ?_⟩
        intro hqp
        simp only [List.map_cons, List.nodup_cons] at hnd
        exact hnd.1 (hqp ▸ List.mem_map_of_mem Prod.fst hq))
      (by rw [hlen2, set_max_size]; simp only [List.length_cons] at hlen; omega)
    show cacheKeys (insertAll (c.set p.1 p.2 now) rest now) = _
    rw [hrest, hstep]
    simp

/-! ## Theorems about the bounded cache (claims C6, C7, C8) -/

/-- C6: for a cache constructed with positive `max_size`, after any finite
sequence of `set`/`get` operations ending in a `set`, the number of cached
entries is at most `max_size` (so the bound holds after every `set` of
every operation sequence). -/
theorem C6_size_bound (K V : Type) [DecidableEq K] (max_size : ℕ) (ttl : ℚ)
    (ops : List (CacheOp K V)) (key : K) (value : V) (now : ℚ)
    (hm : 1 ≤ max_size) :
    (runOps (BoundedLRUCache.init K V max_size ttl)
      (ops ++ [CacheOp.set key value now])).cache.length ≤ max_size := by
  rw [runOps_append]
  show ((runOps _ ops).set key value now).cache.length ≤ max_size
  have hmax : (runOps (BoundedLRUCache.init K V max_size ttl) ops).max_size =
      max_size := runOps_max_size _ _
  have := set_length_le (runOps (BoundedLRUCache.init K V max_size ttl) ops)
    key value now (by rw [hmax]; exact hm)
  rwa [hmax] at this

/-- C6 (witness): the size bound applied to a concrete capacity-2 cache
and a concrete operation sequence. -/
theorem C6_size_bound_witness :
    1 ≤ 2 ∧
    (runOps (BoundedLRUCache.init Int String 2 0)
      ([CacheOp.set 1 "a" 0, CacheOp.set 2 "b" 0, CacheOp.get 1 1] ++
        [CacheOp.set 3 "c" 1])).cache.length ≤ 2 :=
  ⟨by decide,
   C6_size_bound Int String 2 0
     [CacheOp.set 1 "a" 0, CacheOp.set 2 "b" 0, CacheOp.get 1 1]
     3 "c" 1 (by decide)⟩

theorem tail_append_left {A : Type} (l1 l2 : List A) (h : l1 ≠ []) :
    (l1 ++ l2).tail = l1.tail ++ l2 := by
  cases l1 with
  | nil => exact absurd rfl h
  | cons x rest => rfl

/-- C7 (counterexample): with `max_size = 1`, the `get` on key 10 is a hit
(10 is a cached key, and it is most-recently-used afterwards), yet the
next insert of the distinct key 20 still evicts key 10 — a touched key is
not protected from eviction when the capacity is 1. -/
theorem C7_counterexample :
    (c7Step1.get 10 0).1 = some "a" ∧
    (cacheKeys c7Touched).getLast? = some 10 ∧
    (10 : Int) ∉ cacheKeys c7Final := by
  refine ⟨by decide, by decide, by decide⟩

/-- C7 (amended): for every cache of capacity `maxSize ≥ 1` and TTL 0 (no
expirations), inserting `maxSize + 1` pairs with pairwise-distinct keys
leaves exactly the keys other than the first-inserted one, in order — the
first-inserted key is the one evicted; and provided `maxSize ≥ 2`, if a
`get` on some cached key occurs after the first `maxSize` inserts, that
key is most-recently-used afterwards and survives the
eviction-triggering insert of the last pair. -/
theorem C7_lru_eviction (K V : Type) [DecidableEq K] (m : ℕ)
    (front : List (K × V)) (plast : K × V) (tm tg tm2 : ℚ)
    (hm : 1 ≤ m) (hlen : front.length = m)
    (hnd : ((front ++ [plast]).map Prod.fst).Nodup) :
    cacheKeys (insertAll (BoundedLRUCache.init K V m 0) (front ++ [plast]) tm) =
      ((front ++ [plast]).map Prod.fst).tail ∧
    (∀ kj : K, 2 ≤ m → kj ∈ front.map Prod.fst →
      (cacheKeys ((insertAll (BoundedLRUCache.init K V m 0) front tm).get kj tg).2).getLast?
        = some kj ∧
      kj ∈ cacheKeys ((((insertAll (BoundedLRUCache.init K V m 0) front tm).get kj tg).2).set
        plast.1 plast.2 tm2)) := by
  rw [List.map_append] at hnd
  have hndL : (front.map Prod.fst).Nodup := hnd.of_append_left
  have hdisj := List.disjoint_of_nodup_append hnd
  have hlast : plast.1 ∉ front.map Prod.fst := by
    intro hmem
    exact (List.disjoint_right.mp hdisj (by simp)) hmem
  have hfrontne : front.map Prod.fst ≠ [] := by
    intro hnil
    rw [← List.length_eq_zero] at hnil
    rw [List.length_map] at hnil
    omega
  -- the state after inserting the first `m` pairs into the fresh cache
  have hkeys : cacheKeys (insertAll (BoundedLRUCache.init K V m 0) front tm) =
      front.map Prod.fst := by
    have := insertAll_fresh_keys (K := K) (V := V) tm front
      (BoundedLRUCache.init K V m 0) hndL (by intro p _; simp [cacheKeys, BoundedLRUCache.init])
      (by simp [BoundedLRUCache.init, hlen])
    simpa [cacheKeys, BoundedLRUCache.init] using this
  have hmax : (insertAll (BoundedLRUCache.init K V m 0) front tm).max_size = m :=
    insertAll_max_size _ _ _
  have httl : (insertAll (BoundedLRUCache.init K V m 0) front tm).ttl_seconds = 0 :=
    insertAll_ttl _ _ _
  have hlenFull : (insertAll (BoundedLRUCache.init K V m 0) front tm).cache.length = m := by
    have h1 : (cacheKeys (insertAll (BoundedLRUCache.init K V m 0) front tm)).length =
        (insertAll (BoundedLRUCache.init K V m 0) front tm).cache.length :=
      List.length_map _ _
    rw [hkeys, List.length_map, hlen] at h1
    omega
  constructor
  · -- part A: the final keys are all but the first-inserted one
    rw [insertAll_append]
    show cacheKeys ((insertAll (BoundedLRUCache.init K V m 0) front tm).set
      plast.1 plast.2 tm) = _
    rw [set_at_capacity_keys _ _ _ _ (by rw [hkeys]; exact hlast)
      (by rw [hlenFull, hmax]) (by rw [hmax]; exact hm)]
    rw [hkeys, List.map_append, tail_append_left _ _ hfrontne]
    simp
  · -- part B: a touched key is most-recently-used and survives the insert
    intro kj hm2 hkj
    obtain ⟨e, he⟩ := lookupEntry_isSome_of_mem
      (l := (insertAll (BoundedLRUCache.init K V m 0) front tm).cache)
      (by rw [show (insertAll (BoundedLRUCache.init K V m 0) front tm).cache.map Prod.fst =
          front.map Prod.fst from hkeys]; exact hkj)
    have hget := get_hit_of_ttl_nonpos (insertAll (BoundedLRUCache.init K V m 0) front tm)
      kj tg (by rw [httl]; exact lt_irrefl 0) he
    have htouched : ((insertAll (BoundedLRUCache.init K V m 0) front tm).get kj tg).2.cache =
        removeKey (insertAll (BoundedLRUCache.init K V m 0) front tm).cache kj ++ [(kj, e)] := by
      rw [hget]
    have htouchedKeys : cacheKeys ((insertAll (BoundedLRUCache.init K V m 0) front tm).get kj tg).2 =
        (front.map Prod.fst).erase kj ++ [kj] := by
      rw [cacheKeys, htouched, List.map_append, removeKey_map_fst]
      rw [show (insertAll (BoundedLRUCache.init K V m 0) front tm).cache.map Prod.fst =
        front.map Prod.fst from hkeys]
      rfl
    constructor
    · rw [htouchedKeys]
      exact List.getLast?_concat _
    · -- the final insert evicts the head, which is not the touched key
      have hkjmem : kj ∈ (insertAll (BoundedLRUCache.init K V m 0) front tm).cache.map Prod.fst := by
        rw [show (insertAll (BoundedLRUCache.init K V m 0) front tm).cache.map Prod.fst =
          front.map Prod.fst from hkeys]
        exact hkj
      have htouchedLen : ((insertAll (BoundedLRUCache.init K V m 0) front tm).get kj tg).2.cache.length = m := by
        rw [htouched, List.length_append, List.length_singleton]
        have := removeKey_length_of_mem hkjmem
        rw [hlenFull] at this
        omega
      have hfreshLast : plast.1 ∉ cacheKeys ((insertAll (BoundedLRUCache.init K V m 0) front tm).get kj tg).2 := by
        rw [htouchedKeys]
        simp only [List.mem_append, List.mem_singleton]
        push_neg
        constructor
        · intro hmem
          exact hlast (List.mem_of_mem_erase hmem)
        · intro heq
          exact hlast (heq ▸ hkj)
      rw [set_at_capacity_keys _ _ _ _ hfreshLast
        (by rw [htouchedLen, get_max_size, hmax])
        (by rw [get_max_size, hmax]; omega)]
      rw [htouchedKeys]
      have herasene : (front.map Prod.fst).erase kj ≠ [] := by
        have hlenerase : ((front.map Prod.fst).erase kj).length =
            (front.map Prod.fst).length - 1 := List.length_erase_of_mem hkj
        rw [List.length_map, hlen] at hlenerase
        intro hnil
        rw [hnil] at hlenerase
        simp at hlenerase
        omega
      rw [tail_append_left _ _ herasene]
      simp

/-- C7 (witness): the amended LRU theorem applied to a concrete capacity-2
cache, the three distinct keys 10, 20, 30 and the touched key 10. -/
theorem C7_lru_eviction_witness :
    (1 ≤ 2 ∧ ([((10 : Int), "a"), (20, "b")] : List (Int × String)).length = 2 ∧
      ((([((10 : Int), "a"), (20, "b")] : List (Int × String)) ++ [(30, "c")]).map Prod.fst).Nodup) ∧
    (cacheKeys (insertAll (BoundedLRUCache.init Int String 2 0)
        ([((10 : Int), "a"), (20, "b")] ++ [(30, "c")]) 0) =
      ((([((10 : Int), "a"), (20, "b")] : List (Int × String)) ++ [(30, "c")]).map Prod.fst).tail ∧
    (∀ kj : Int, 2 ≤ 2 → kj ∈ ([((10 : Int), "a"), (20, "b")] : List (Int × String)).map Prod.fst →
      (cacheKeys ((insertAll (BoundedLRUCache.init Int String 2 0)
          [((10 : Int), "a"), (20, "b")] 0).get kj 1).2).getLast? = some kj ∧
      kj ∈ cacheKeys ((((insertAll (BoundedLRUCache.init Int String 2 0)
          [((10 : Int), "a"), (20, "b")] 0).get kj 1).2).set 30 "c" 2))) :=
  ⟨⟨by decide, by decide, by decide⟩,
   C7_lru_eviction Int String 2 [(10, "a"), (20, "b")] (30, "c") 0 1 2
     (by decide) (by decide) (by decide)⟩

/-- C8: on a cache with positive TTL, a `get` on a key whose stored entry
has expired (the current monotonic instant is strictly past its
`expires_at`) returns `none` and removes the entry, so the cache size
drops by exactly one. -/
theorem C8_expired_get (K V : Type) [DecidableEq K]
    (c : BoundedLRUCache K V) (key : K) (now : ℚ) (e : CacheEntry V)
    (httl : 0 < c.ttl_seconds) (hfind : lookupEntry c.cache key = some e)
    (hexp : e.expires_at < (now : WithTop ℚ)) :
    (c.get key now).1 = none ∧
    (c.get key now).2.cache.length + 1 = c.cache.length := by
  have hget : c.get key now =
      (none, { c with cache := removeKey c.cache key, misses := c.misses + 1 }) := by
    unfold BoundedLRUCache.get
    rw [hfind]
    exact if_pos ⟨httl, hexp⟩
  refine ⟨by rw [hget], ?_⟩
  rw [hget]
  exact removeKey_length_of_mem (lookupEntry_mem hfind)

/-- C8 (witness): the expired-entry theorem applied to the concrete cache
state at instant 6, past the expiration instant 5. -/
theorem C8_expired_get_witness :
    (0 < c8Cache.ttl_seconds ∧
      lookupEntry c8Cache.cache 1 = some ⟨"x", ((5 : ℚ) : WithTop ℚ)⟩ ∧
      (⟨"x", ((5 : ℚ) : WithTop ℚ)⟩ : CacheEntry String).expires_at <
        (((6 : ℚ)) : WithTop ℚ)) ∧
    ((c8Cache.get 1 6).1 = none ∧
      (c8Cache.get 1 6).2.cache.length + 1 = c8Cache.cache.length) :=
  ⟨⟨by decide, by decide, by decide⟩,
   C8_expired_get Int String c8Cache 1 6 ⟨"x", ((5 : ℚ) : WithTop ℚ)⟩
     (by decide) (by decide) (by decide)⟩

theorem refill_bucketAfter (rpm : ℕ) (burst : Option ℕ) (t0 : ℚ) (n : ℕ) :
    refill (bucketAfter rpm burst t0 n) t0 = bucketAfter rpm burst t0 n := by
  unfold refill bucketAfter
  congr 1
  show min ((initCapacity rpm burst : ℕ) : ℚ)
      (((initCapacity rpm burst : ℕ) : ℚ) - n + (t0 - t0) * ((rpm : ℚ) / 60)) =
    ((initCapacity rpm burst : ℕ) : ℚ) - n
  rw [sub_self, zero_mul, add_zero]
  exact min_eq_right (by
    have : (0 : ℚ) ≤ (n : ℚ) := Nat.cast_nonneg n
    linarith)

theorem acquire_attempt_bucketAfter (rpm : ℕ) (burst : Option ℕ) (t0 : ℚ)
    (n : ℕ) (hn : n + 1 ≤ initCapacity rpm burst) :
    acquire_attempt (bucketAfter rpm burst t0 n) t0 =
      AcquireOutcome.acquired (bucketAfter rpm burst t0 (n + 1)) := by
  unfold acquire_attempt
  rw [refill_bucketAfter]
  rw [if_pos (by
    show (1 : ℚ) ≤ ((initCapacity rpm burst : ℕ) : ℚ) - n
    have : ((n : ℚ) + 1) ≤ ((initCapacity rpm burst : ℕ) : ℚ) := by
      exact_mod_cast hn
    linarith)]
  refine congrArg AcquireOutcome.acquired ?_
  simp only [bucketAfter, TokenBucketRateLimiter.mk.injEq, true_and, and_true]
  push_cast
  ring

theorem acquireN_bucketAfter (rpm : ℕ) (burst : Option ℕ) (t0 : ℚ) :
    ∀ (n k : ℕ), k + n ≤ initCapacity rpm burst →
      acquireN t0 n (bucketAfter rpm burst t0 k) =
        some (bucketAfter rpm burst t0 (k + n)) := by
  intro n
  induction n with
  | zero => intro k _; rfl
  | succ n ih =>
    intro k h
    rw [show k + (n + 1) = (k + 1) + n from by omega]
    have hstep : acquireN t0 (n + 1) (bucketAfter rpm burst t0 k) =
        match acquire_attempt (bucketAfter rpm burst t0 k) t0 with
        | AcquireOutcome.acquired r => acquireN t0 n r
        | AcquireOutcome.mustWait _ _ => none := rfl
    rw [hstep, acquire_attempt_bucketAfter rpm burst t0 k (by omega)]
    show acquireN t0 n (bucketAfter rpm burst t0 (k + 1)) =
      some (bucketAfter rpm burst t0 ((k + 1) + n))
    exact ih (k + 1) (by omega)

theorem init_eq_bucketAfter (rpm : ℕ) (burst : Option ℕ) (t0 : ℚ) :
    TokenBucketRateLimiter.init rpm burst t0 = bucketAfter rpm burst t0 0 := by
  unfold TokenBucketRateLimiter.init bucketAfter
  congr 1
  simp

theorem acquireN_init (rpm : ℕ) (burst : Option ℕ) (t0 : ℚ) (n : ℕ)
    (hn : n ≤ initCapacity rpm burst) :
    acquireN t0 n (TokenBucketRateLimiter.init rpm burst t0) =
      some (bucketAfter rpm burst t0 n) := by
  rw [init_eq_bucketAfter]
  have := acquireN_bucketAfter rpm burst t0 n 0 (by omega)
  simpa using this

/-! ## Theorem about the rate limiter (claim C9) -/

/-- C9: a freshly constructed token-bucket limiter starts with a full
bucket of `capacity` tokens; the first `capacity` consecutive `acquire()`
calls with no time elapsing all succeed on their first loop iteration
(never reaching the sleep branch), each consuming exactly 1.0 token, so
after `n ≤ capacity` of them exactly `capacity - n` tokens remain; and the
`(capacity + 1)`-th call cannot succeed immediately: it computes a wait of
`(1.0 - tokens) / rate`, which equals `1 / rate` seconds. -/
theorem C9_token_bucket_burst (rpm : ℕ) (burst : Option ℕ) (t0 : ℚ) :
    (TokenBucketRateLimiter.init rpm burst t0).tokens =
      ((TokenBucketRateLimiter.init rpm burst t0).capacity : ℚ) ∧
    (∀ n, n ≤ (TokenBucketRateLimiter.init rpm burst t0).capacity →
      acquireN t0 n (TokenBucketRateLimiter.init rpm burst t0) =
        some (bucketAfter rpm burst t0 n) ∧
      (bucketAfter rpm burst t0 n).tokens =
        ((TokenBucketRateLimiter.init rpm burst t0).capacity : ℚ) - n) ∧
    (∀ rlc, acquireN t0 (TokenBucketRateLimiter.init rpm burst t0).capacity
        (TokenBucketRateLimiter.init rpm burst t0) = some rlc →
      acquire_attempt rlc t0 =
        AcquireOutcome.mustWait (refill rlc t0)
          ((1 - (refill rlc t0).tokens) / (refill rlc t0).rate) ∧
      (1 - (refill rlc t0).tokens) / (refill rlc t0).rate =
        1 / (TokenBucketRateLimiter.init rpm burst t0).rate) := by
  refine ⟨rfl, ?_, ?_⟩
  · intro n hn
    exact ⟨acquireN_init rpm burst t0 n hn, rfl⟩
  · intro rlc hrlc
    rw [show (TokenBucketRateLimiter.init rpm burst t0).capacity =
      initCapacity rpm burst from rfl] at hrlc
    rw [acquireN_init rpm burst t0 (initCapacity rpm burst) le_rfl] at hrlc
    rcases Option.some_inj.mp hrlc with rfl
    have hzero : (1 : ℚ) ≤
        (refill (bucketAfter rpm burst t0 (initCapacity rpm burst)) t0).tokens ↔
        False := by
      rw [refill_bucketAfter]
      show (1 : ℚ) ≤ ((initCapacity rpm burst : ℕ) : ℚ) -
        ((initCapacity rpm burst : ℕ) : ℚ) ↔ False
      rw [sub_self]
      norm_num
    constructor
    · unfold acquire_attempt
      rw [if_neg (fun h => hzero.mp h)]
    · rw [refill_bucketAfter]
      show (1 - (((initCapacity rpm burst : ℕ) : ℚ) -
          ((initCapacity rpm burst : ℕ) : ℚ))) / ((rpm : ℚ) / 60) =
        1 / ((rpm : ℚ) / 60)
      rw [sub_self, sub_zero]

/-- C9 (witness): the burst theorem applied to a limiter built for 60
requests per minute (default burst capacity 10): all 10 immediate
`acquire()` calls succeed and drain the bucket to zero tokens. -/
theorem C9_token_bucket_burst_witness :
    10 ≤ (TokenBucketRateLimiter.init 60 none 0).capacity ∧
    (acquireN 0 10 (TokenBucketRateLimiter.init 60 none 0) =
      some (bucketAfter 60 none 0 10) ∧
     (bucketAfter 60 none 0 10).tokens =
       ((TokenBucketRateLimiter.init 60 none 0).capacity : ℚ) - 10) :=
  ⟨by decide, (C9_token_bucket_burst 60 none 0).2.1 10 (by decide)⟩

/-! ## Deduplication invariants of the fetch engine -/
theorem processPage_spec {R S : Type} (step : Finset Int → R → Finset Int × Option S)
    (idOf : S → Int)
    (Hsub : ∀ seen r, seen ⊆ (step seen r).1)
    (Hyield : ∀ seen r s, (step seen r).2 = some s →
      idOf s ∉ seen ∧ idOf s ∈ (step seen r).1) :
    ∀ (recs : List R) (seen : Finset Int),
      seen ⊆ (processPage step recs seen).1 ∧
      ((processPage step recs seen).2.map idOf).Nodup ∧
      (∀ s ∈ (processPage step recs seen).2,
        idOf s ∉ seen ∧ idOf s ∈ (processPage step recs seen).1)
  | [], seen => by
    refine ⟨Finset.Subset.refl seen, List.nodup_nil, ?_⟩
    intro s hs
    exact absurd hs (List.not_mem_nil s)
  | r :: rs, seen => by
    obtain ⟨ih1, ih2, ih3⟩ :=
      processPage_spec step idOf Hsub Hyield rs (step seen r).1
    have hunfold : processPage step (r :: rs) seen =
        ((processPage step rs (step seen r).1).1,
          match (step seen r).2 with
          | some s => s :: (processPage step rs (step seen r).1).2
          | none => (processPage step rs (step seen r).1).2) := rfl
    rw [hunfold]
    cases hy : (step seen r).2 with
    | none =>
      refine ⟨(Hsub seen r).trans ih1, ih2, ?_⟩
      intro s hs
      exact ⟨fun hmem => (ih3 s hs).1 (Hsub seen r hmem), (ih3 s hs).2⟩
    | some s0 =>
      obtain ⟨hs1, hs2⟩ := Hyield seen r s0 hy
      refine ⟨(Hsub seen r).trans ih1, ?_, ?_⟩
      · refine List.nodup_cons.mpr ⟨?_, ih2⟩
        intro hmem
        rw [List.mem_map] at hmem
        obtain ⟨s2, hmem2, heq⟩ := hmem
        exact (ih3 s2 hmem2).1 (heq ▸ hs2)
      · intro s hs
        rcases List.mem_cons.mp hs with heq | hmem
        · subst heq
          exact ⟨hs1, ih1 hs2⟩
        · exact ⟨fun hseen => (ih3 s hmem).1 (Hsub seen r hseen), (ih3 s hmem).2⟩

theorem fetchPages_spec {R S : Type} (step : Finset Int → R → Finset Int × Option S)
    (idOf : S → Int)
    (Hsub : ∀ seen r, seen ⊆ (step seen r).1)
    (Hyield : ∀ seen r s, (step seen r).2 = some s →
      idOf s ∉ seen ∧ idOf s ∈ (step seen r).1) :
    ∀ (resps : List (PageResponse R)) (page : ℕ) (seen : Finset Int),
      seen ⊆ (fetchPages step resps page seen).1 ∧
      ((fetchPages step resps page seen).2.map idOf).Nodup ∧
      (∀ s ∈ (fetchPages step resps page seen).2,
        idOf s ∉ seen ∧ idOf s ∈ (fetchPages step resps page seen).1)
  | [], _, seen => by
    refine ⟨Finset.Subset.refl seen, List.nodup_nil, ?_⟩
    intro s hs
    exact absurd hs (List.not_mem_nil s)
  | resp :: rest, page, seen => by
    obtain ⟨p1, p2, p3⟩ := processPage_spec step idOf Hsub Hyield resp.records seen
    by_cases hempty : resp.records.isEmpty
    · have hunf : fetchPages step (resp :: rest) page seen = (seen, []) := by
        unfold fetchPages
        rw [if_pos hempty]
      rw [hunf]
      refine ⟨Finset.Subset.refl seen, List.nodup_nil, ?_⟩
      intro s hs
      exact absurd hs (List.not_mem_nil s)
    · by_cases hlast : resp.total_pages ≤ page
      · have hunf : fetchPages step (resp :: rest) page seen =
            processPage step resp.records seen := by
          unfold fetchPages
          rw [if_neg hempty, if_pos hlast]
        rw [hunf]
        exact ⟨p1, p2, p3⟩
      · obtain ⟨f1, f2, f3⟩ := fetchPages_spec step idOf Hsub Hyield rest (page + 1)
          (processPage step resp.records seen).1
        have hunf : fetchPages step (resp :: rest) page seen =
            ((fetchPages step rest (page + 1) (processPage step resp.records seen).1).1,
             (processPage step resp.records seen).2 ++
               (fetchPages step rest (page + 1) (processPage step resp.records seen).1).2) := by
          rw [fetchPages]
          rw [if_neg hempty, if_neg hlast]
        rw [hunf]
        refine ⟨p1.trans f1, ?_, ?_⟩
        · rw [List.map_append]
          refine List.Nodup.append p2 f2 ?_
          intro a ha hb
          rw [List.mem_map] at ha hb
          obtain ⟨s1, hs1, he1⟩ := ha
          obtain ⟨s2, hs2, he2⟩ := hb
          exact (f3 s2 hs2).1 (he2 ▸ he1 ▸ (p3 s1 hs1).2)
        · intro s hs
          rcases List.mem_append.mp hs with hmem | hmem
          · exact ⟨(p3 s hmem).1, f1 (p3 s hmem).2⟩
          · exact ⟨fun hseen => (f3 s hmem).1 (p1 hseen), (f3 s hmem).2⟩

theorem stepTicket_sub (fc : Bool) (gc : Int → List RSComment)
    (since : Option Datetime) :
    ∀ (seen : Finset Int) (t : RSTicket),
      seen ⊆ (stepTicket fc gc since seen t).1 := by
  intro seen t
  unfold stepTicket
  by_cases hid : t.id ∈ seen
  · rw [if_pos hid]
  · rw [if_neg hid]
    by_cases hf : sinceFilterSkip since t.updated_at
    · rw [if_pos hf]
      exact Finset.subset_insert _ _
    · rw [if_neg hf]
      exact Finset.subset_insert _ _

theorem stepTicket_yield (fc : Bool) (gc : Int → List RSComment)
    (since : Option Datetime) :
    ∀ (seen : Finset Int) (t : RSTicket) (s : RSTicket),
      (stepTicket fc gc since seen t).2 = some s →
      s.id ∉ seen ∧ s.id ∈ (stepTicket fc gc since seen t).1 := by
  intro seen t s h
  unfold stepTicket at h ⊢
  by_cases hid : t.id ∈ seen
  · rw [if_pos hid] at h
    exact absurd h (by simp)
  · rw [if_neg hid] at h ⊢
    by_cases hf : sinceFilterSkip since t.updated_at
    · rw [if_pos hf] at h
      exact absurd h (by simp)
    · rw [if_neg hf] at h ⊢
      have hs : s = if fc then { t with comments := gc t.id } else t := by
        simpa using h.symm
      have hsid : s.id = t.id := by
        rw [hs]
        by_cases hfc : fc
        · rw [if_pos hfc]
        · rw [if_neg hfc]
      rw [hsid]
      exact ⟨hid, Finset.mem_insert_self _ _⟩

theorem stepCustomer_sub (since : Option Datetime) :
    ∀ (seen : Finset Int) (c : RSCustomer),
      seen ⊆ (stepCustomer since seen c).1 := by
  intro seen c
  unfold stepCustomer
  by_cases hid : c.id ∈ seen
  · rw [if_pos hid]
  · rw [if_neg hid]
    by_cases hf : sinceFilterSkip since c.updated_at
    · rw [if_pos hf]
      exact Finset.subset_insert _ _
    · rw [if_neg hf]
      exact Finset.subset_insert _ _

theorem stepCustomer_yield (since : Option Datetime) :
    ∀ (seen : Finset Int) (c : RSCustomer) (s : RSCustomer),
      (stepCustomer since seen c).2 = some s →
      s.id ∉ seen ∧ s.id ∈ (stepCustomer since seen c).1 := by
  intro seen c s h
  unfold stepCustomer at h ⊢
  by_cases hid : c.id ∈ seen
  · rw [if_pos hid] at h
    exact absurd h (by simp)
  · rw [if_neg hid] at h ⊢
    by_cases hf : sinceFilterSkip since c.updated_at
    · rw [if_pos hf] at h
      exact absurd h (by simp)
    · rw [if_neg hf] at h ⊢
      have hs : s = c := by simpa using h.symm
      rw [hs]
      exact ⟨hid, Finset.mem_insert_self _ _⟩

theorem stepAsset_sub (since : Option Datetime) :
    ∀ (seen : Finset Int) (a : RSAsset),
      seen ⊆ (stepAsset since seen a).1 := by
  intro seen a
  unfold stepAsset
  by_cases hid : a.id ∈ seen
  · rw [if_pos hid]
  · rw [if_neg hid]
    by_cases hf : sinceFilterSkip since a.updated_at
    · rw [if_pos hf]
      exact Finset.subset_insert _ _
    · rw [if_neg hf]
      exact Finset.subset_insert _ _

theorem stepAsset_yield (since : Option Datetime) :
    ∀ (seen : Finset Int) (a : RSAsset) (s : RSAsset),
      (stepAsset since seen a).2 = some s →
      s.id ∉ seen ∧ s.id ∈ (stepAsset since seen a).1 := by
  intro seen a s h
  unfold stepAsset at h ⊢
  by_cases hid : a.id ∈ seen
  · rw [if_pos hid] at h
    exact absurd h (by simp)
  · rw [if_neg hid] at h ⊢
    by_cases hf : sinceFilterSkip since a.updated_at
    · rw [if_pos hf] at h
      exact absurd h (by simp)
    · rw [if_neg hf] at h ⊢
      have hs : s = a := by simpa using h.symm
      rw [hs]
      exact ⟨hid, Finset.mem_insert_self _ _⟩

theorem stepInvoice_sub (since : Option Datetime) :
    ∀ (seen : Finset Int) (i : RSInvoice),
      seen ⊆ (stepInvoice since seen i).1 := by
  intro seen i
  unfold stepInvoice
  by_cases hid : i.id ∈ seen
  · rw [if_pos hid]
  · rw [if_neg hid]
    by_cases hf : sinceFilterSkip since i.updated_at
    · rw [if_pos hf]
      exact Finset.subset_insert _ _
    · rw [if_neg hf]
      exact Finset.subset_insert _ _

theorem stepInvoice_yield (since : Option Datetime) :
    ∀ (seen : Finset Int) (i : RSInvoice) (s : RSInvoice),
      (stepInvoice since seen i).2 = some s →
      s.id ∉ seen ∧ s.id ∈ (stepInvoice since seen i).1 := by
  intro seen i s h
  unfold stepInvoice at h ⊢
  by_cases hid : i.id ∈ seen
  · rw [if_pos hid] at h
    exact absurd h (by simp)
  · rw [if_neg hid] at h ⊢
    by_cases hf : sinceFilterSkip since i.updated_at
    · rw [if_pos hf] at h
      exact absurd h (by simp)
    · rw [if_neg hf] at h ⊢
      have hs : s = i := by simpa using h.symm
      rw [hs]
      exact ⟨hid, Finset.mem_insert_self _ _⟩

/-! ## Theorems about the fetch iterators (claims C3, C10) -/

/-- C3: each of the four entity iterators yields each record id at most
once, and never an id of the given seen-id set — stated as: the
enumeration of the initial seen-id set followed by the yielded ids has no
duplicate.  In particular, on two overlapping pages (ids 1,2 and 2,3) the
ticket iterator emits ids 1, 2, 3, each exactly once. -/
theorem C3_iterators_dedup
    (since : Option Datetime) (fetch_comments : Bool)
    (getComments : Int → List RSComment)
    (ticketPages : List (PageResponse RSTicket))
    (customerPages : List (PageResponse RSCustomer))
    (assetPages : List (PageResponse RSAsset))
    (invoicePages : List (PageResponse RSInvoice))
    (seenT seenC seenA seenI : Finset Int) :
    (seenT.sort (· ≤ ·) ++
      (iter_all_tickets ticketPages since fetch_comments getComments seenT).2.map
        RSTicket.id).Nodup ∧
    (seenC.sort (· ≤ ·) ++
      (iter_all_customers customerPages since seenC).2.map RSCustomer.id).Nodup ∧
    (seenA.sort (· ≤ ·) ++
      (iter_all_assets assetPages since seenA).2.map RSAsset.id).Nodup ∧
    (seenI.sort (· ≤ ·) ++
      (iter_all_invoices invoicePages since seenI).2.map RSInvoice.id).Nodup ∧
    (iter_all_tickets overlapTicketPages none false (fun _ => []) ∅).2.map
      RSTicket.id = [1, 2, 3] := by
  have hT := fetchPages_spec (stepTicket fetch_comments getComments since)
    RSTicket.id (stepTicket_sub fetch_comments getComments since)
    (stepTicket_yield fetch_comments getComments since) ticketPages 1 seenT
  have hC := fetchPages_spec (stepCustomer since) RSCustomer.id
    (stepCustomer_sub since) (stepCustomer_yield since) customerPages 1 seenC
  have hA := fetchPages_spec (stepAsset since) RSAsset.id
    (stepAsset_sub since) (stepAsset_yield since) assetPages 1 seenA
  have hI := fetchPages_spec (stepInvoice since) RSInvoice.id
    (stepInvoice_sub since) (stepInvoice_yield since) invoicePages 1 seenI
  refine ⟨?_, ?_, ?_, ?_, by decide⟩
  · refine List.Nodup.append (Finset.sort_nodup _ _) hT.2.1 ?_
    intro x hx hy
    rw [List.mem_map] at hy
    obtain ⟨s, hs, heq⟩ := hy
    rw [Finset.mem_sort] at hx
    exact (hT.2.2 s hs).1 (heq ▸ hx)
  · refine List.Nodup.append (Finset.sort_nodup _ _) hC.2.1 ?_
    intro x hx hy
    rw [List.mem_map] at hy
    obtain ⟨s, hs, heq⟩ := hy
    rw [Finset.mem_sort] at hx
    exact (hC.2.2 s hs).1 (heq ▸ hx)
  · refine List.Nodup.append (Finset.sort_nodup _ _) hA.2.1 ?_
    intro x hx hy
    rw [List.mem_map] at hy
    obtain ⟨s, hs, heq⟩ := hy
    rw [Finset.mem_sort] at hx
    exact (hA.2.2 s hs).1 (heq ▸ hx)
  · refine List.Nodup.append (Finset.sort_nodup _ _) hI.2.1 ?_
    intro x hx hy
    rw [List.mem_map] at hy
    obtain ⟨s, hs, heq⟩ := hy
    rw [Finset.mem_sort] at hx
    exact (hI.2.2 s hs).1 (heq ▸ hx)

theorem sinceFilterSkip_none (since : Option Datetime) :
    sinceFilterSkip since none = false := by
  cases since <;> rfl

/-- C10: in each of the four entity iterators, the client-side `since`
filter only ever skips records that carry an `updated_at` value: a record
whose `updated_at` is absent and whose id is not yet in the seen-id set is
always yielded by the per-record step, for every active `since` bound. -/
theorem C10_absent_updated_at_always_yielded
    (fetch_comments : Bool) (getComments : Int → List RSComment)
    (since : Option Datetime) (seen : Finset Int)
    (t : RSTicket) (c : RSCustomer) (a : RSAsset) (i : RSInvoice)
    (htid : t.id ∉ seen) (htu : t.updated_at = none)
    (hcid : c.id ∉ seen) (hcu : c.updated_at = none)
    (haid : a.id ∉ seen) (hau : a.updated_at = none)
    (hiid : i.id ∉ seen) (hiu : i.updated_at = none) :
    stepTicket fetch_comments getComments since seen t =
      (insert t.id seen,
        some (if fetch_comments then { t with comments := getComments t.id } else t)) ∧
    stepCustomer since seen c = (insert c.id seen, some c) ∧
    stepAsset since seen a = (insert a.id seen, some a) ∧
    stepInvoice since seen i = (insert i.id seen, some i) := by
  refine ⟨?_, ?_, ?_, ?_⟩
  · unfold stepTicket
    rw [if_neg htid, htu, sinceFilterSkip_none]
    exact if_neg (by simp)
  · unfold stepCustomer
    rw [if_neg hcid, hcu, sinceFilterSkip_none]
    exact if_neg (by simp)
  · unfold stepAsset
    rw [if_neg haid, hau, sinceFilterSkip_none]
    exact if_neg (by simp)
  · unfold stepInvoice
    rw [if_neg hiid, hiu, sinceFilterSkip_none]
    exact if_neg (by simp)

/-- C10 (witness): a very old `since` bound is active, and records with no
`updated_at` and unseen ids are still yielded by all four steps. -/
theorem C10_absent_updated_at_always_yielded_witness :
    ((plainTicket 5).id ∉ (∅ : Finset Int) ∧ (plainTicket 5).updated_at = none ∧
      c10Customer.id ∉ (∅ : Finset Int) ∧ c10Customer.updated_at = none ∧
      c10Asset.id ∉ (∅ : Finset Int) ∧ c10Asset.updated_at = none ∧
      c10Invoice.id ∉ (∅ : Finset Int) ∧ c10Invoice.updated_at = none) ∧
    (stepTicket true (fun _ => []) (some ⟨1000000000000⟩) ∅ (plainTicket 5) =
      (insert (plainTicket 5).id ∅,
        some (if true then
          { plainTicket 5 with comments := (fun _ => ([] : List RSComment)) (plainTicket 5).id }
        else plainTicket 5)) ∧
     stepCustomer (some ⟨1000000000000⟩) ∅ c10Customer =
      (insert c10Customer.id ∅, some c10Customer) ∧
     stepAsset (some ⟨1000000000000⟩) ∅ c10Asset =
      (insert c10Asset.id ∅, some c10Asset) ∧
     stepInvoice (some ⟨1000000000000⟩) ∅ c10Invoice =
      (insert c10Invoice.id ∅, some c10Invoice)) :=
  ⟨⟨by decide, rfl, by decide, rfl, by decide, rfl, by decide, rfl⟩,
   C10_absent_updated_at_always_yielded true (fun _ => [])
     (some ⟨1000000000000⟩) ∅ (plainTicket 5) c10Customer c10Asset c10Invoice
     (by decide) rfl (by decide) rfl (by decide) rfl (by decide) rfl⟩

/-! ## Theorem about the document building loop (claim C5) -/
theorem load_tickets_go_spec {Doc : Type} (ticket_statuses : Option (List String))
    (batch_size : ℕ)
    (buildDoc : RSTicket → Option RSCustomer → Option RSAsset → Except String Doc)
    (customersCache : Int → Option RSCustomer)
    (assetsCache : Int → List RSAsset) :
    ∀ (ts : List RSTicket) (batch : List Doc) (cp : SyncCheckpoint),
      (load_tickets_go ticket_statuses batch_size buildDoc customersCache
          assetsCache ts batch cp).2.errors =
        cp.errors ++
          ticketFailureMsgs ticket_statuses buildDoc customersCache assetsCache ts ∧
      (load_tickets_go ticket_statuses batch_size buildDoc customersCache
          assetsCache ts batch cp).1.flatten =
        batch ++
          ticketSuccessDocs ticket_statuses buildDoc customersCache assetsCache ts ∧
      (load_tickets_go ticket_statuses batch_size buildDoc customersCache
          assetsCache ts batch cp).2.documents_processed =
        cp.documents_processed +
          (ticketSuccessDocs ticket_statuses buildDoc customersCache assetsCache
            ts).length
  | [], batch, cp => by
    refine ⟨by simp [load_tickets_go, ticketFailureMsgs], ?_,
      by simp [load_tickets_go, ticketSuccessDocs]⟩
    show (if batch.isEmpty then [] else [batch]).flatten = batch ++ _
    by_cases hb : batch.isEmpty
    · rw [if_pos hb, List.isEmpty_iff.mp hb]
      rfl
    · rw [if_neg hb]
      show batch ++ [] = batch ++ _
      rw [ticketSuccessDocs]
  | t :: ts, batch, cp => by
    by_cases hskip : statusSkip ticket_statuses t
    · have hunf : load_tickets_go ticket_statuses batch_size buildDoc customersCache
          assetsCache (t :: ts) batch cp =
          load_tickets_go ticket_statuses batch_size buildDoc customersCache
            assetsCache ts batch cp := by
        rw [load_tickets_go, if_pos hskip]
      have hmsg : ticketFailureMsgs ticket_statuses buildDoc customersCache
          assetsCache (t :: ts) =
          ticketFailureMsgs ticket_statuses buildDoc customersCache assetsCache ts := by
        rw [ticketFailureMsgs, if_pos hskip]
      have hdoc : ticketSuccessDocs ticket_statuses buildDoc customersCache
          assetsCache (t :: ts) =
          ticketSuccessDocs ticket_statuses buildDoc customersCache assetsCache ts := by
        rw [ticketSuccessDocs, if_pos hskip]
      rw [hunf, hmsg, hdoc]
      exact load_tickets_go_spec ticket_statuses batch_size buildDoc customersCache
        assetsCache ts batch cp
    · cases hbuild : buildAttempt buildDoc customersCache assetsCache t with
      | ok doc =>
        have hmsg : ticketFailureMsgs ticket_statuses buildDoc customersCache
            assetsCache (t :: ts) =
            ticketFailureMsgs ticket_statuses buildDoc customersCache assetsCache ts := by
          rw [ticketFailureMsgs, if_neg hskip, hbuild]
        have hdoc : ticketSuccessDocs ticket_statuses buildDoc customersCache
            assetsCache (t :: ts) =
            doc :: ticketSuccessDocs ticket_statuses buildDoc customersCache
              assetsCache ts := by
          rw [ticketSuccessDocs, if_neg hskip, hbuild]
        have hunf : load_tickets_go ticket_statuses batch_size buildDoc customersCache
            assetsCache (t :: ts) batch cp =
            (if batch_size ≤ (batch ++ [doc]).length then
              ((batch ++ [doc]) ::
                (load_tickets_go ticket_statuses batch_size buildDoc customersCache
                  assetsCache ts []
                  { cp with documents_processed := cp.documents_processed + 1 }).1,
               (load_tickets_go ticket_statuses batch_size buildDoc customersCache
                  assetsCache ts []
                  { cp with documents_processed := cp.documents_processed + 1 }).2)
            else
              load_tickets_go ticket_statuses batch_size buildDoc customersCache
                assetsCache ts (batch ++ [doc])
                { cp with documents_processed := cp.documents_processed + 1 }) := by
          rw [load_tickets_go, if_neg hskip, hbuild]
        rw [hunf, hmsg, hdoc]
        by_cases hflush : batch_size ≤ (batch ++ [doc]).length
        · rw [if_pos hflush]
          obtain ⟨ih1, ih2, ih3⟩ := load_tickets_go_spec ticket_statuses batch_size
            buildDoc customersCache assetsCache ts []
            { cp with documents_processed := cp.documents_processed + 1 }
          refine ⟨by simpa using ih1, ?_, ?_⟩
          · simp only [List.flatten_cons, ih2]
            simp
          · simp only [List.length_cons, ih3]
            omega
        · rw [if_neg hflush]
          obtain ⟨ih1, ih2, ih3⟩ := load_tickets_go_spec ticket_statuses batch_size
            buildDoc customersCache assetsCache ts (batch ++ [doc])
            { cp with documents_processed := cp.documents_processed + 1 }
          refine ⟨by simpa using ih1, ?_, ?_⟩
          · simp only [ih2]
            simp
          · simp only [List.length_cons, ih3]
            omega
      | error e =>
        have hmsg : ticketFailureMsgs ticket_statuses buildDoc customersCache
            assetsCache (t :: ts) =
            build_error_message t e ::
              ticketFailureMsgs ticket_statuses buildDoc customersCache assetsCache ts := by
          rw [ticketFailureMsgs, if_neg hskip, hbuild]
        have hdoc : ticketSuccessDocs ticket_statuses buildDoc customersCache
            assetsCache (t :: ts) =
            ticketSuccessDocs ticket_statuses buildDoc customersCache assetsCache ts := by
          rw [ticketSuccessDocs, if_neg hskip, hbuild]
        have hunf : load_tickets_go ticket_statuses batch_size buildDoc customersCache
            assetsCache (t :: ts) batch cp =
            (if batch_size ≤ batch.length then
              (batch ::
                (load_tickets_go ticket_statuses batch_size buildDoc customersCache
                  assetsCache ts []
                  { cp with errors := cp.errors ++ [build_error_message t e] }).1,
               (load_tickets_go ticket_statuses batch_size buildDoc customersCache
                  assetsCache ts []
                  { cp with errors := cp.errors ++ [build_error_message t e] }).2)
            else
              load_tickets_go ticket_statuses batch_size buildDoc customersCache
                assetsCache ts batch
                { cp with errors := cp.errors ++ [build_error_message t e] }) := by
          rw [load_tickets_go, if_neg hskip, hbuild]
        rw [hunf, hmsg, hdoc]
        by_cases hflush : batch_size ≤ batch.length
        · rw [if_pos hflush]
          obtain ⟨ih1, ih2, ih3⟩ := load_tickets_go_spec ticket_statuses batch_size
            buildDoc customersCache assetsCache ts []
            { cp with errors := cp.errors ++ [build_error_message t e] }
          refine ⟨?_, ?_, by simpa using ih3⟩
          · simp only [ih1]
            simp
          · simp only [List.flatten_cons, ih2]
            simp
        · rw [if_neg hflush]
          obtain ⟨ih1, ih2, ih3⟩ := load_tickets_go_spec ticket_statuses batch_size
            buildDoc customersCache assetsCache ts batch
            { cp with errors := cp.errors ++ [build_error_message t e] }
          refine ⟨?_, ih2, by simpa using ih3⟩
          simp only [ih1]
          simp

/-- C5: per-record failures during document construction are caught at the
record level and do not abort the batch: running the ticket loop over any
stream appends exactly one error string per failing eligible ticket (in
order) to `checkpoint.errors`, still emits the documents of every
succeeding eligible ticket (in order, across the batches) and counts them,
and the serialized checkpoint keeps only a suffix of at most the 100 most
recent error entries. -/
theorem C5_per_record_error_capture {Doc : Type}
    (ticket_statuses : Option (List String)) (batch_size : ℕ)
    (buildDoc : RSTicket → Option RSCustomer → Option RSAsset → Except String Doc)
    (customersCache : Int → Option RSCustomer)
    (assetsCache : Int → List RSAsset)
    (tickets : List RSTicket) (cp : SyncCheckpoint) :
    (load_tickets ticket_statuses batch_size buildDoc customersCache assetsCache
        tickets cp).2.errors =
      cp.errors ++
        ticketFailureMsgs ticket_statuses buildDoc customersCache assetsCache
          tickets ∧
    (load_tickets ticket_statuses batch_size buildDoc customersCache assetsCache
        tickets cp).1.flatten =
      ticketSuccessDocs ticket_statuses buildDoc customersCache assetsCache
        tickets ∧
    (load_tickets ticket_statuses batch_size buildDoc customersCache assetsCache
        tickets cp).2.documents_processed =
      cp.documents_processed +
        (ticketSuccessDocs ticket_statuses buildDoc customersCache assetsCache
          tickets).length ∧
    List.IsSuffix
      (SyncCheckpoint.to_dict
        (load_tickets ticket_statuses batch_size buildDoc customersCache
          assetsCache tickets cp).2).errors
      (load_tickets ticket_statuses batch_size buildDoc customersCache assetsCache
        tickets cp).2.errors ∧
    (SyncCheckpoint.to_dict
      (load_tickets ticket_statuses batch_size buildDoc customersCache assetsCache
        tickets cp).2).errors.length ≤ 100 := by
  obtain ⟨h1, h2, h3⟩ := load_tickets_go_spec ticket_statuses batch_size buildDoc
    customersCache assetsCache tickets [] cp
  refine ⟨h1, by simpa using h2, h3, ?_, ?_⟩
  · show List.IsSuffix (List.drop _ _) _
    exact List.drop_suffix _ _
  · show (List.drop _ _).length ≤ 100
    rw [List.length_drop]
    omega

end OnyxRSBridge
